import Mathlib

/-!
Verification of the PhishSniper feature-extraction and risk-scoring pipeline.

Shallow embedding conventions:
* Python strings are modelled as lists of Unicode code points (`Str := List Nat`);
  `txt` turns a Lean string literal into that representation.
* Pure Python functions become Lean functions; external collaborators
  (urllib.parse, tldextract, fuzzywuzzy, python-whois, socket.inet_aton,
  ipaddress) are passed in as function parameters or injected data.
* Fallible code returns `Except`; the only runtime failure the repository's own
  code can raise during trait analysis is a Python `NameError` (see
  `analyze_suspicious_traits` below).
-/

/-- Python strings as lists of Unicode code points. -/
abbrev Str := List Nat

/-- Code-point list of a Lean string literal. -/
def txt (s : String) : Str := s.data.map Char.toNat

/-- `List.isPrefixOf` specialised to code-point lists (Python
`s.startswith(pat)` at position 0). -/
def isPre : Str → Str → Bool
  | [], _ => true
  | _ :: _, [] => false
  | a :: as, b :: bs => a == b && isPre as bs

/-- Python `str.lower` restricted to ASCII letters: code points 65..90 are
shifted into 97..122, all other code points are unchanged.  All strings the
pipeline compares case-insensitively (brands, domain labels, registrar names)
are ASCII. -/
def lowerChar (c : Nat) : Nat := if 65 ≤ c ∧ c ≤ 90 then c + 32 else c

/-- `s.lower()` on the ASCII model. -/
def lower (s : Str) : Str := s.map lowerChar

/-- Python substring test `pat in s`: `pat` occurs contiguously in `s`. -/
def strIn (pat : Str) : Str → Bool
  | [] => isPre pat []
  | c :: rest => isPre pat (c :: rest) || strIn pat rest

/-- Fuel-indexed worker for `replaceStr`; the fuel starts at `s.length`,
which bounds the number of loop steps of CPython's `str.replace`. -/
def replaceAux : Nat → Str → Str → Str → Str
  | 0, s, _, _ => s
  | _ + 1, [], _, _ => []
  | fuel + 1, c :: rest, old, new =>
      if old ≠ [] ∧ isPre old (c :: rest) = true then
        new ++ replaceAux fuel (List.drop old.length (c :: rest)) old new
      else
        c :: replaceAux fuel rest old new

/-- Python `s.replace(old, new)` for a non-empty pattern: every non-overlapping
occurrence of `old`, scanned left to right, is replaced by `new`.  (The
homoglyph table only ever substitutes non-empty tokens, so the empty-pattern
corner of CPython's `str.replace` is irrelevant and left as the identity.) -/
def replaceStr (s old new : Str) : Str := replaceAux s.length s old new

/-- Python `s.split(sep)` for a one-character separator `c`. -/
def splitOn (c : Nat) : Str → List Str
  | [] => [[]]
  | x :: xs =>
      if x = c then [] :: splitOn c xs
      else
        match splitOn c xs with
        | h :: t => (x :: h) :: t
        | [] => [[x]]

/-- Python `s.split(":")[0]`: the text before the first colon (code point 58),
or the whole string when there is no colon. -/
def beforeColon (s : Str) : Str := s.takeWhile (fun c => c ≠ 58)

/-- Python `s.split(":")[-1]`: the text after the last colon. -/
def afterLastColon (s : Str) : Str := (s.reverse.takeWhile (fun c => c ≠ 58)).reverse

/-- Python `lst[-1]` on a non-empty list, with a default for the (unreachable)
empty case. -/
def lastD : List Nat → Nat → Nat
  | [], d => d
  | [x], _ => x
  | _ :: x :: xs, d => lastD (x :: xs) d

/-- Values stored in trait/feature dictionaries: strings or numbers. -/
inductive PyVal where
  | vstr (s : Str)
  | vnum (n : Int)
deriving DecidableEq

/-- A suspicious-trait record `{"type": ..., "value": ..., "description": ...}`
as built by the URL parser and the domain-intelligence module. -/
structure Trait where
  type : String
  value : PyVal
  description : Str
deriving DecidableEq

/-- A brand-match record as built by `BrandMatcher.find_matches`;
`similarity`/`levenshtein`/`substitution` are `none` for the match kinds that
do not set those keys. -/
structure Match where
  type : String
  brand : Str
  value : Str
  similarity : Option Nat
  levenshtein : Option Nat
  substitution : Option Str
  description : Str
deriving DecidableEq

/-- A risk-factor record `{"type": ..., "weight": ..., "description": ...}`. -/
structure RiskFactor where
  type : String
  weight : Nat
  description : Str
deriving DecidableEq

/-- The fields of the domain-intelligence result dictionary
(`DomainIntelligence.analyze`).  Dates are modelled at day granularity as
integer day numbers. -/
structure DomainInfo where
  domain : Str
  domain_exists : Bool
  creation_date : Option Int
  expiration_date : Option Int
  last_updated : Option Int
  registrar : Option Str
  domain_age_days : Option Int
  suspicious_traits : List Trait
deriving DecidableEq

/-- The slice of the combined feature dictionary that
`RiskEngine.calculate_risk` reads; a `none` field models a missing key, which
the code guards with `in` checks. -/
structure Features where
  suspicious_traits : Option (List Trait)
  domain_info : Option DomainInfo
  brand_matches : Option (List Match)

/-- `RiskEngine.risk_weights`: the fixed mapping from trait/match kind to
integer weight (risk_engine.py, `__init__`). -/
def risk_weights : List (String × Nat) :=
  [("non_standard_port", 15),
   ("ip_address", 25),
   ("private_ip", 30),
   ("many_subdomains", 15),
   ("suspicious_tld", 20),
   ("hex_encoding", 30),
   ("punycode", 25),
   ("long_url", 10),
   ("special_chars", 15),
   ("non_existent_domain", 40),
   ("whois_lookup_failed", 15),
   ("new_domain", 25),
   ("suspicious_registrar", 15),
   ("short_registration", 20),
   ("ip_address_no_whois", 25),
   ("brand_in_domain", 15),
   ("brand_in_subdomain", 20),
   ("typosquatting", 40),
   ("homoglyph_attack", 50),
   ("partial_homoglyph", 35)]

/-- The weight with which one brand match is recorded.  For a `typosquatting`
match that carries a `similarity` key the base weight is scaled:
`int(weight * similarity / 100)`.  For every reachable `similarity` in 0..100
and the configured base weight 40, CPython's float expression
`int(weight * (similarity / 100))` equals exact truncated division
`weight * similarity / 100` (checked case by case over the 101 values,
including the round-to-nearest-even ties at similarity 35, 55 and 70), so the
scaling is embedded as natural-number division. -/
def matchWeight (m : Match) (w : Nat) : Nat :=
  if m.type == "typosquatting" then
    match m.similarity with
    | some s => w * s / 100
    | none => w
  else w

/-- The risk factor recorded for one trait, or `none` when its kind is not in
the weight table (unknown kinds are silently ignored). -/
def factorOfTrait (t : Trait) : Option RiskFactor :=
  (risk_weights.lookup t.type).map (fun w => ⟨t.type, w, t.description⟩)

/-- The risk factor recorded for one brand match, or `none` when its kind is
not in the weight table. -/
def factorOfMatch (m : Match) : Option RiskFactor :=
  (risk_weights.lookup m.type).map (fun w => ⟨m.type, matchWeight m w, m.description⟩)

/-- The risk factors recorded for a list of traits, in order. -/
def traitFactors (ts : List Trait) : List RiskFactor := ts.filterMap factorOfTrait

/-- The risk factors recorded for a list of brand matches, in order. -/
def matchFactors (ms : List Match) : List RiskFactor := ms.filterMap factorOfMatch

/-- The `risk_factors` list of `calculate_risk` before the final sort: URL
traits, then domain-intelligence traits, then brand matches. -/
def riskFactorsUnsorted (f : Features) : List RiskFactor :=
  traitFactors (f.suspicious_traits.getD []) ++
    traitFactors ((f.domain_info.map DomainInfo.suspicious_traits).getD []) ++
    matchFactors (f.brand_matches.getD [])

/-- `total_weight`: the sum of all recorded weights. -/
def totalWeight (f : Features) : Nat :=
  ((riskFactorsUnsorted f).map RiskFactor.weight).sum

/-- The descending-by-weight order used by
`risk_factors.sort(key=lambda x: x["weight"], reverse=True)`. -/
def wge (a b : RiskFactor) : Prop := b.weight ≤ a.weight

instance : DecidableRel wge := fun a b => Nat.decLe b.weight a.weight

instance : IsTotal RiskFactor wge := ⟨fun a b => Nat.le_total b.weight a.weight⟩

instance : IsTrans RiskFactor wge := ⟨fun _ _ _ hab hbc => Nat.le_trans hbc hab⟩

/-- Python's `list.sort(key=..., reverse=True)` is a stable descending sort;
insertion sort with `wge` has exactly that semantics (an element is inserted
before the first earlier-sorted element of smaller-or-equal weight, so
equal-weight elements keep their original relative order). -/
def sortRisk (l : List RiskFactor) : List RiskFactor := l.insertionSort wge

/-- `RiskEngine.calculate_risk`: records one weighted factor per known trait
or match kind, caps the summed weight at `max_risk_score = 100`, and returns
the factors sorted by weight descending. -/
def calculate_risk (f : Features) : Nat × List RiskFactor :=
  (min (totalWeight f) 100, sortRisk (riskFactorsUnsorted f))

/-- `AnalysisResult.risk_level` (result.py): the banding of the risk score. -/
def riskLevel (score : Nat) : String :=
  if score < 30 then "Low"
  else if score < 70 then "Medium"
  else "High"

/-- `BrandMatcher.default_brands` (brand_matcher.py, `__init__`): the built-in
brand list; note that `"dropbox"` appears twice (positions 10 and 26). -/
def default_brands : List Str :=
  [txt "google", txt "microsoft", txt "apple", txt "amazon", txt "facebook", txt "paypal",
   txt "netflix", txt "instagram", txt "twitter", txt "linkedin", txt "dropbox", txt "yahoo",
   txt "chase", txt "bankofamerica", txt "wellsfargo", txt "citibank", txt "hsbc", txt "barclays",
   txt "americanexpress", txt "mastercard", txt "visa", txt "outlook", txt "gmail", txt "icloud",
   txt "office365", txt "onedrive", txt "dropbox", txt "box", txt "adobe", txt "spotify",
   txt "steam", txt "epicgames", txt "blizzard", txt "ea", txt "ubisoft", txt "nintendo",
   txt "playstation", txt "xbox", txt "twitch", txt "youtube", txt "walmart", txt "target",
   txt "ebay", txt "aliexpress", txt "fedex", txt "ups", txt "dhl", txt "usps"]

/-- The homoglyph substitution table of `BrandMatcher._check_homoglyphs`, as
the Python dict literal actually evaluates: a dict keeps the first insertion
position but the last value of a duplicated key, so the source entries mapping
the key 1 to l and the key m to rn are overwritten by the later entries
mapping 1 to i and m to nn, and are absent from the evaluated table. -/
def homoglyphs : List (Str × Str) :=
  [(txt "0", txt "o"), (txt "o", txt "0"),
   (txt "1", txt "i"), (txt "l", txt "1"), (txt "i", txt "1"),
   (txt "5", txt "s"), (txt "s", txt "5"),
   (txt "rn", txt "m"), (txt "m", txt "nn"),
   (txt "cl", txt "d"), (txt "d", txt "cl"),
   (txt "vv", txt "w"), (txt "w", txt "vv"),
   (txt "nn", txt "m")]

/-- Substitution cost `(c1 != c2)` of `_levenshtein_distance`. -/
def subCost (c1 c2 : Nat) : Nat := if c1 = c2 then 0 else 1

/-- The inner loop of `_levenshtein_distance`: from the previous DP row
(`pj :: pj1 :: rest`, aligned so that `pj = previous_row[j]` and
`pj1 = previous_row[j+1]`), the current character `c1`, the remaining
characters of `s2`, and the last value `cur = current_row[j]`, produce the
rest of the current row.  Each cell is
`min(insertions, deletions, substitutions)
 = min(previous_row[j+1] + 1, current_row[j] + 1, previous_row[j] + cost)`. -/
def curRow (c1 : Nat) : Str → List Nat → Nat → List Nat
  | c2 :: cs, pj :: pj1 :: rest, cur =>
      let v := min (pj1 + 1) (min (cur + 1) (pj + subCost c1 c2))
      v :: curRow c1 cs (pj1 :: rest) v
  | _, _, _ => []

/-- The outer loop of `_levenshtein_distance`: fold the row update over the
characters of `s1`, starting each row with `current_row = [i + 1]`
(`previous_row[0] + 1`). -/
def levLoop : Str → Str → List Nat → List Nat
  | [], _, prev => prev
  | c1 :: s1, s2, prev =>
      let h := prev.headD 0
      levLoop s1 s2 ((h + 1) :: curRow c1 s2 prev (h + 1))

/-- The body of `_levenshtein_distance` after the length swap: return
`len(s1)` when `s2` is empty, otherwise run the DP from
`previous_row = range(len(s2) + 1)` and return `previous_row[-1]`. -/
def levCore (s1 s2 : Str) : Nat :=
  if s2.length = 0 then s1.length
  else lastD (levLoop s1 s2 (List.range (s2.length + 1))) 0

/-- `BrandMatcher._levenshtein_distance`: when `len(s1) < len(s2)` the
function calls itself with the arguments swapped (the swapped call then takes
the non-swap branch), so the recursion is expanded into a single conditional
around `levCore`. -/
def levenshtein_distance (s1 s2 : Str) : Nat :=
  if s1.length < s2.length then levCore s2 s1 else levCore s1 s2

/-- `fuzzy_threshold = 85` (brand_matcher.py). -/
def fuzzy_threshold : Nat := 85

/-- `levenshtein_threshold = 2` (brand_matcher.py). -/
def levenshtein_threshold : Nat := 2

/-- The `brand_in_domain` match record. -/
def bidMatch (brand d : Str) : Match :=
  ⟨"brand_in_domain", brand, d, none, none, none,
    txt "Brand \x27" ++ brand ++ txt "\x27 found in domain"⟩

/-- The `brand_in_subdomain` match record. -/
def bisMatch (brand sub : Str) : Match :=
  ⟨"brand_in_subdomain", brand, sub, none, none, none,
    txt "Brand \x27" ++ brand ++ txt "\x27 found in subdomain"⟩

/-- The subdomain check of the first loop of `find_matches`:
`if extracted.subdomain and brand in extracted.subdomain.lower()`. -/
def subPass (sub : Str) (brand : Str) : List Match :=
  if sub ≠ [] ∧ strIn brand (lower sub) = true then [bisMatch brand sub] else []

/-- One iteration of the first loop of `find_matches` (exact containment):
`brand in domain.lower()` emits `brand_in_domain` unless the domain equals the
brand, in which case `continue` also skips this brand's subdomain check;
independently the subdomain check emits `brand_in_subdomain`. -/
def exactPass (d sub : Str) (brand : Str) : List Match :=
  if strIn brand (lower d) = true then
    if lower d = lower brand then []
    else bidMatch brand d :: subPass sub brand
  else subPass sub brand

/-- The `typosquatting` match record. -/
def typoMatch (brand d : Str) (ratio lev : Nat) : Match :=
  ⟨"typosquatting", brand, d, some ratio, some lev,
    none,
    txt "Possible typosquatting of \x27" ++ brand ++ txt "\x27 (similarity: " ++
      txt (toString ratio) ++ txt "%)"⟩

/-- One iteration of the typosquatting loop of `find_matches`.  The fuzzy
similarity `fuzz.ratio` comes from the external fuzzywuzzy library and is
injected as `ratioF`. -/
def typoPass (ratioF : Str → Str → Nat) (d : Str) (brand : Str) : List Match :=
  if brand.length < 4 then []
  else
    if fuzzy_threshold ≤ ratioF (lower d) (lower brand) ∨
        (levenshtein_distance (lower d) (lower brand) ≤ levenshtein_threshold ∧
          4 < brand.length) then
      if lower d = lower brand then []
      else [typoMatch brand d (ratioF (lower d) (lower brand))
        (levenshtein_distance (lower d) (lower brand))]
    else []

/-- The `homoglyph_attack` match record. -/
def hgaMatch (brand d o r : Str) : Match :=
  ⟨"homoglyph_attack", brand, d, none, none,
    some (txt "\x27" ++ o ++ txt "\x27 to \x27" ++ r ++ txt "\x27"),
    txt "Homoglyph attack on \x27" ++ brand ++ txt "\x27 (replacing \x27" ++ o ++
      txt "\x27 with \x27" ++ r ++ txt "\x27)"⟩

/-- The `partial_homoglyph` match record. -/
def phMatch (brand d o r : Str) : Match :=
  ⟨"partial_homoglyph", brand, d, none, none,
    some (txt "\x27" ++ o ++ txt "\x27 to \x27" ++ r ++ txt "\x27"),
    txt "Partial homoglyph match for \x27" ++ brand ++ txt "\x27 in domain"⟩

/-- One brand's iteration of `_check_homoglyphs`: for each table entry whose
original token occurs in the brand, substitute it and compare the candidate
with the domain (equality emits `homoglyph_attack`, strict containment emits
`partial_homoglyph`). -/
def homEntry (d brand : Str) (p : Str × Str) : List Match :=
  if strIn p.1 brand = true then
    if lower d = lower (replaceStr brand p.1 p.2) then [hgaMatch brand d p.1 p.2]
    else if strIn (lower (replaceStr brand p.1 p.2)) (lower d) = true then
      [phMatch brand d p.1 p.2]
    else []
  else []

def homPass (d : Str) (brand : Str) : List Match :=
  if brand.length < 4 then []
  else homoglyphs.flatMap (homEntry d brand)

/-- `BrandMatcher._check_homoglyphs`. -/
def check_homoglyphs (brands : List Str) (d : Str) : List Match :=
  brands.flatMap (homPass d)

/-- `BrandMatcher.find_matches`, operating on the `tldextract` output (the
registrable-domain label `d` and the subdomain label `sub`; tldextract is an
external collaborator).  The three passes run in order: exact containment,
typosquatting, homoglyphs. -/
def find_matches (ratioF : Str → Str → Nat) (brands : List Str) (d sub : Str) :
    List Match :=
  brands.flatMap (exactPass d sub) ++ brands.flatMap (typoPass ratioF d) ++
    check_homoglyphs brands d

/-- `endswith`: `pat` is a suffix of `s`. -/
def isSuf (pat s : Str) : Bool := isPre pat.reverse s.reverse

/-- ASCII decimal digit (`\d` of the URL parser's regular expressions). -/
def isDigit (c : Nat) : Bool := 48 ≤ c && c ≤ 57

/-- `[0-9a-fA-F]` of the hex-encoding pattern. -/
def isHexDigit (c : Nat) : Bool :=
  (48 ≤ c && c ≤ 57) || (97 ≤ c && c ≤ 102) || (65 ≤ c && c ≤ 70)

/-- `re.search` of `hex_pattern = %[0-9a-fA-F]{2}`: some position of `s`
starts a percent sign followed by two hex digits. -/
def hexFound : Str → Bool
  | 37 :: a :: b :: rest => (isHexDigit a && isHexDigit b) || hexFound (a :: b :: rest)
  | _ :: rest => hexFound rest
  | [] => false

/-- Consume exactly `k` decimal digits, returning the remainder. -/
def takeDigits : Nat → Str → Option Str
  | 0, s => some s
  | _ + 1, [] => none
  | k + 1, c :: rest => if isDigit c then takeDigits k rest else none

/-- The remainders reachable by `\d{1,3}` (one, two or three digits). -/
def ipSeg (s : Str) : List Str := [1, 2, 3].filterMap (fun k => takeDigits k s)

/-- A match of `ip_pattern = \d{1,3}\.\d{1,3}\.\d{1,3}\.\d{1,3}` starting at
the head of `s` (existence over all backtracking choices, which is what
`re.search` decides at each position). -/
def ipAt (s : Str) : Bool :=
  (ipSeg s).any (fun r1 =>
    match r1 with
    | 46 :: r2 =>
        (ipSeg r2).any (fun r3 =>
          match r3 with
          | 46 :: r4 =>
              (ipSeg r4).any (fun r5 =>
                match r5 with
                | 46 :: r6 => !(ipSeg r6).isEmpty
                | _ => false)
          | _ => false)
    | _ => false)

/-- `re.search` of the IPv4 pattern: a match starting at some position. -/
def ipSearch : Str → Bool
  | [] => false
  | c :: rest => ipAt (c :: rest) || ipSearch rest

/-- `URLParser.suspicious_tlds` (url_parser.py, `__init__`). -/
def suspicious_tlds : List Str :=
  [txt "tk", txt "ml", txt "ga", txt "cf", txt "gq", txt "xyz", txt "top",
   txt "work", txt "date", txt "bid", txt "stream", txt "racing", txt "win",
   txt "review", txt "country", txt "science", txt "download"]

/-- ASCII model of Python `str.isalnum` (all strings the parser inspects in
the analysed claims are ASCII). -/
def isAlnum (c : Nat) : Bool :=
  (48 ≤ c && c ≤ 57) || (65 ≤ c && c ≤ 90) || (97 ≤ c && c ≤ 122)

/-- The output of `urllib.parse.urlparse` (external collaborator), including
the reconstructed URL `geturl()`. -/
structure ParsedURL where
  scheme : Str
  netloc : Str
  path : Str
  query : Str
  fragment : Str
  geturl : Str

/-- The output of `tldextract.extract` (external collaborator). -/
structure Extracted where
  subdomain : Str
  domain : Str
  suffix : Str

/-- The only exception the repository's own analysis code can raise:
`_analyze_suspicious_traits` builds the `hex_encoding` trait with
`"value": url`, but no name `url` is bound in that function's scope (not a
parameter, not a local, not a module global), so CPython raises `NameError`
whenever the hex branch is reached. -/
inductive PyError where
  | nameErrorUrl
deriving DecidableEq

/-- The `non_standard_port` check of `_analyze_suspicious_traits`. -/
def portTraits (netloc : Str) : List Trait :=
  if strIn (txt ":") netloc = true ∧
      ¬(isSuf (txt ":80") netloc = true ∨ isSuf (txt ":443") netloc = true) then
    [⟨"non_standard_port", PyVal.vstr (afterLastColon netloc),
      txt "Non-standard port " ++ afterLastColon netloc ++ txt " in use"⟩]
  else []

/-- The `ip_address` / `private_ip` checks.  `ipaddress.ip_address(...).is_private`
is external; `isPrivate ip = none` models a `ValueError` (caught and passed),
`some b` a successful parse with privateness `b`. -/
def ipTraits (isPrivate : Str → Option Bool) (netloc : Str) : List Trait :=
  if ipSearch (beforeColon netloc) = true then
    ⟨"ip_address", PyVal.vstr (beforeColon netloc),
      txt "IP address used instead of domain name"⟩ ::
    (match isPrivate (beforeColon netloc) with
     | some true => [⟨"private_ip", PyVal.vstr (beforeColon netloc),
         txt "Private IP address used"⟩]
     | _ => [])
  else []

/-- The `many_subdomains` check: the subdomain split at dots has more than
3 parts. -/
def manySubTraits (sub : Str) : List Trait :=
  let parts := splitOn 46 sub
  if 3 < parts.length then
    [⟨"many_subdomains", PyVal.vstr sub,
      txt "Excessive number of subdomains (" ++ txt (toString parts.length) ++ txt ")"⟩]
  else []

/-- The `suspicious_tld` check. -/
def tldTraits (suffix : Str) : List Trait :=
  if suffix ∈ suspicious_tlds then
    [⟨"suspicious_tld", PyVal.vstr suffix,
      txt "Suspicious TLD \x27" ++ suffix ++ txt "\x27"⟩]
  else []

/-- The `punycode` check: the ACE prefix `xn--` occurs in the netloc. -/
def punyTraits (netloc : Str) : List Trait :=
  if strIn (txt "xn--") netloc = true then
    [⟨"punycode", PyVal.vstr netloc, txt "Punycode (IDN) encoding detected"⟩]
  else []

/-- The `long_url` check on `len(parsed.geturl())`. -/
def longTraits (geturl : Str) : List Trait :=
  if 100 < geturl.length then
    [⟨"long_url", PyVal.vnum geturl.length,
      txt "Excessively long URL (" ++ txt (toString geturl.length) ++ txt " characters)"⟩]
  else []

/-- The `special_chars` check: more than 3 netloc characters that are neither
alphanumeric nor `.`, `-`, `:`. -/
def specialTraits (netloc : Str) : List Trait :=
  let n := netloc.countP (fun c => !isAlnum c && !(c == 46 || c == 45 || c == 58))
  if 3 < n then
    [⟨"special_chars", PyVal.vnum n,
      txt "Excessive special characters in domain (" ++ txt (toString n) ++ txt ")"⟩]
  else []

/-- `URLParser._analyze_suspicious_traits`.  The checks run in source order;
when the hex-encoding condition holds on netloc or path, building the trait
dictionary evaluates the unbound name `url` and the whole call raises
`NameError` (the traits appended before that point are discarded with the
stack frame), so the embedding returns `Except.error` in exactly that case. -/
def analyze_suspicious_traits (isPrivate : Str → Option Bool)
    (p : ParsedURL) (e : Extracted) : Except PyError (List Trait) :=
  if (hexFound p.netloc || hexFound p.path) = true then
    Except.error PyError.nameErrorUrl
  else
    Except.ok (portTraits p.netloc ++ ipTraits isPrivate p.netloc ++
      manySubTraits e.subdomain ++ tldTraits e.suffix ++ punyTraits p.netloc ++
      longTraits p.geturl ++ specialTraits p.netloc)

/-- The result dictionary of `URLParser.parse`. -/
structure ParseResult where
  url : Str
  scheme : Str
  hostname : Str
  path : Str
  query : Str
  fragment : Str
  domain : Str
  subdomain : Str
  tld : Str
  query_params : List (Str × List Str)
  suspicious_traits : List Trait

/-- The scheme normalization at the top of `URLParser.parse`: when the input
does not start with the scheme prefix http:// or https://, the prefix
http:// is prepended before parsing. -/
def normalizeScheme (url : Str) : Str :=
  if isPre (txt "http://") url = true ∨ isPre (txt "https://") url = true
  then url else txt "http://" ++ url

/-- `URLParser.parse`: prefix `http://` when no recognized scheme is present,
then delegate to `urllib.parse.urlparse`, `tldextract.extract` and
`urllib.parse.parse_qs` (external collaborators, injected as `urlparseF`,
`extractF`, `parseQsF`) and assemble the result dictionary.  There is no
error path of its own: the only failure is the `NameError` escaping from
`_analyze_suspicious_traits`. -/
def parse (urlparseF : Str → ParsedURL) (extractF : Str → Extracted)
    (parseQsF : Str → List (Str × List Str)) (isPrivate : Str → Option Bool)
    (url : Str) : Except PyError ParseResult :=
  let u := normalizeScheme url
  let p := urlparseF u
  let e := extractF u
  match analyze_suspicious_traits isPrivate p e with
  | Except.error er => Except.error er
  | Except.ok traits =>
      Except.ok ⟨u, p.scheme, p.netloc, p.path, p.query, p.fragment,
        e.domain, e.subdomain, e.suffix, parseQsF p.query, traits⟩

/-- `DomainIntelligence.suspicious_registrars`. -/
def suspicious_registrars : List Str :=
  [txt "namecheap", txt "namesilo", txt "namebright", txt "porkbun",
   txt "dynadot", txt "internetbs", txt "epik", txt "regru"]

/-- A WHOIS date value: absent, a single date, or a list of dates (modelled
at day granularity; `datetime` objects are always truthy, only `None` and the
empty list are falsy). -/
inductive DateVal where
  | dnone
  | dval (d : Int)
  | dlist (ds : List Int)

/-- `DomainIntelligence._get_first_date`. -/
def getFirstDate : DateVal → Option Int
  | DateVal.dnone => none
  | DateVal.dval d => some d
  | DateVal.dlist [] => none
  | DateVal.dlist (d :: _) => some d

/-- The fields of a `whois.whois` result that `analyze` reads. -/
structure WhoisInfo where
  domain_name : Option Str
  creation_date : DateVal
  expiration_date : DateVal
  updated_date : DateVal
  registrar : Option Str

/-- The outcome of the external `whois.whois` call: an exception (any
`Exception e`, carrying `str(e)`) or a record. -/
inductive WhoisOutcome where
  | err (msg : Str)
  | ok (info : WhoisInfo)

/-- The single trait synthesized for IP-literal hosts. -/
def ipNoWhoisTrait (hostname : Str) : Trait :=
  ⟨"ip_address_no_whois", PyVal.vstr hostname,
    txt "IP address used instead of domain name (no WHOIS data)"⟩

/-- The port strip at the top of `DomainIntelligence.analyze`:
`if ":" in hostname: hostname = hostname.split(":")[0]`. -/
def stripPort (hostname : Str) : Str :=
  if strIn (txt ":") hostname = true then beforeColon hostname else hostname

/-- The registrable domain string built in `DomainIntelligence.analyze`:
extracted.domain joined to extracted.suffix with a dot when the suffix is
non-empty (truthy), else extracted.domain alone. -/
def domainOf (e : Extracted) : Str :=
  if e.suffix ≠ [] then e.domain ++ txt "." ++ e.suffix else e.domain

/-- `DomainIntelligence.analyze`.  External collaborators are injected:
`inetAton` is the IP-literal recognizer `socket.inet_aton` wrapped by
`_is_ip_address` (true iff the call does not raise), `extractF` is
`tldextract.extract`, `whoisF` is the `whois.whois` call on the registrable
domain, and `now` is `datetime.datetime.now()` as a day number.  When the
hostname is recognized as an IP literal the function returns before any WHOIS
call, with `domain_exists = False` and the single `ip_address_no_whois`
trait. -/
def domain_analyze (inetAton : Str → Bool) (extractF : Str → Extracted)
    (whoisF : Str → WhoisOutcome) (now : Int) (hostname0 : Str) : DomainInfo :=
  let hostname := stripPort hostname0
  let e := extractF hostname
  let domain := domainOf e
  if inetAton hostname = true then
    ⟨domain, false, none, none, none, none, none, [ipNoWhoisTrait hostname]⟩
  else
    match whoisF domain with
    | WhoisOutcome.err msg =>
        ⟨domain, false, none, none, none, none, none,
          [⟨"whois_lookup_failed", PyVal.vstr msg,
            txt "WHOIS lookup failed, which may indicate a suspicious domain"⟩]⟩
    | WhoisOutcome.ok info =>
        match info.domain_name with
        | none =>
            ⟨domain, false, none, none, none, none, none,
              [⟨"non_existent_domain", PyVal.vstr domain,
                txt "Domain does not exist in WHOIS records"⟩]⟩
        | some _ =>
            let c := getFirstDate info.creation_date
            let ex := getFirstDate info.expiration_date
            let up := getFirstDate info.updated_date
            let ageDays : Option Int := c.map (fun cd => now - cd)
            let newT : List Trait :=
              match c with
              | some cd =>
                  if now - cd < 30 then
                    [⟨"new_domain", PyVal.vnum (now - cd),
                      txt "Domain was registered recently (" ++
                        txt (toString (now - cd)) ++ txt " days ago)"⟩]
                  else []
              | none => []
            let regT : List Trait :=
              match info.registrar with
              | some r =>
                  if r ≠ [] ∧ suspicious_registrars.any (fun sr => strIn sr (lower r)) = true then
                    [⟨"suspicious_registrar", PyVal.vstr r,
                      txt "Domain registered with suspicious registrar: " ++ r⟩]
                  else []
              | none => []
            let shortT : List Trait :=
              match c, ex with
              | some cd, some ed =>
                  if ed - cd < 365 then
                    [⟨"short_registration", PyVal.vnum (ed - cd),
                      txt "Short registration period (" ++ txt (toString (ed - cd)) ++
                        txt " days)"⟩]
                  else []
              | _, _ => []
            ⟨domain, true, c, ex, up, info.registrar, ageDays, newT ++ regT ++ shortT⟩

/-- The classic Levenshtein recurrence (insertions, deletions and
substitutions each of cost 1), used as the reference specification that the
row-based dynamic program of `_levenshtein_distance` is proved to compute. -/
def levRec : Str → Str → Nat
  | [], t => t.length
  | _ :: s, [] => s.length + 1
  | a :: s, b :: t =>
      min (levRec s (b :: t) + 1) (min (levRec (a :: s) t + 1) (levRec s t + subCost a b))
termination_by s t => s.length + t.length
decreasing_by all_goals (simp only [List.length_cons]; omega)

theorem levRec_nil_left (t : Str) : levRec [] t = t.length := by
  simp [levRec]

theorem levRec_nil_right (s : Str) : levRec s [] = s.length := by
  cases s <;> simp [levRec]

theorem levRec_cons_cons (a b : Nat) (s t : Str) :
    levRec (a :: s) (b :: t) =
      min (levRec s (b :: t) + 1) (min (levRec (a :: s) t + 1) (levRec s t + subCost a b)) := by
  rw [levRec]

theorem subCost_comm (a b : Nat) : subCost a b = subCost b a := by
  rcases eq_or_ne a b with h | h
  · rw [h]
  · simp [subCost, h, Ne.symm h]

/-- The DP row associated with a processed (reversed) prefix `rp` of `s1` and
a still-to-come suffix of `s2`, entry by entry. -/
def rowAux (rp : Str) : Str → Str → List Nat
  | _, [] => []
  | rq, c2 :: cs => levRec rp (c2 :: rq) :: rowAux rp (c2 :: rq) cs

/-- The full DP row for processed (reversed) prefix `rp`. -/
def row (rp s2 : Str) : List Nat := levRec rp [] :: rowAux rp [] s2

theorem curRow_row (c1 : Nat) (rp : Str) :
    ∀ (cs rq : Str),
      curRow c1 cs (levRec rp rq :: rowAux rp rq cs) (levRec (c1 :: rp) rq) =
        rowAux (c1 :: rp) rq cs := by
  intro cs
  induction cs with
  | nil => intro rq; rfl
  | cons c2 cs ih =>
      intro rq
      show curRow c1 (c2 :: cs)
          (levRec rp rq :: levRec rp (c2 :: rq) :: rowAux rp (c2 :: rq) cs)
          (levRec (c1 :: rp) rq) = rowAux (c1 :: rp) rq (c2 :: cs)
      rw [curRow]
      have hv : min (levRec rp (c2 :: rq) + 1)
          (min (levRec (c1 :: rp) rq + 1) (levRec rp rq + subCost c1 c2)) =
          levRec (c1 :: rp) (c2 :: rq) := (levRec_cons_cons c1 c2 rp rq).symm
      rw [hv]
      show levRec (c1 :: rp) (c2 :: rq) ::
          curRow c1 cs (levRec rp (c2 :: rq) :: rowAux rp (c2 :: rq) cs)
            (levRec (c1 :: rp) (c2 :: rq)) = rowAux (c1 :: rp) rq (c2 :: cs)
      rw [ih (c2 :: rq)]
      rfl

theorem levLoop_row (s2 : Str) :
    ∀ (s1 rp : Str), levLoop s1 s2 (row rp s2) = row (List.reverseAux s1 rp) s2 := by
  intro s1
  induction s1 with
  | nil => intro rp; rfl
  | cons c1 s1 ih =>
      intro rp
      show levLoop s1 s2
          (((row rp s2).headD 0 + 1) :: curRow c1 s2 (row rp s2) ((row rp s2).headD 0 + 1)) =
          row (List.reverseAux s1 (c1 :: rp)) s2
      have hh : (row rp s2).headD 0 + 1 = levRec (c1 :: rp) [] := by
        show levRec rp [] + 1 = levRec (c1 :: rp) []
        rw [levRec_nil_right, levRec_nil_right]
        rfl
      rw [hh]
      have hc : curRow c1 s2 (row rp s2) (levRec (c1 :: rp) []) = rowAux (c1 :: rp) [] s2 :=
        curRow_row c1 rp s2 []
      rw [hc]
      exact ih (c1 :: rp)

theorem rowAux_nil_left : ∀ (cs rq : Str),
    rowAux [] rq cs = List.range' (rq.length + 1) cs.length := by
  intro cs
  induction cs with
  | nil => intro rq; rfl
  | cons c2 cs ih =>
      intro rq
      show levRec [] (c2 :: rq) :: rowAux [] (c2 :: rq) cs =
        List.range' (rq.length + 1) (cs.length + 1)
      rw [levRec_nil_left, ih (c2 :: rq), List.range'_succ]
      rfl

theorem row_nil_left (s2 : Str) : row [] s2 = List.range (s2.length + 1) := by
  show levRec [] [] :: rowAux [] [] s2 = List.range (s2.length + 1)
  rw [levRec_nil_left, rowAux_nil_left s2 [], List.range_eq_range', List.range'_succ]
  rfl

theorem lastD_row (rp : Str) : ∀ (cs rq : Str),
    lastD (levRec rp rq :: rowAux rp rq cs) 0 = levRec rp (List.reverseAux cs rq) := by
  intro cs
  induction cs with
  | nil => intro rq; rfl
  | cons c2 cs ih =>
      intro rq
      show lastD (levRec rp rq :: levRec rp (c2 :: rq) :: rowAux rp (c2 :: rq) cs) 0 =
        levRec rp (List.reverseAux cs (c2 :: rq))
      rw [lastD]
      exact ih (c2 :: rq)

/-- The row-based dynamic program of `_levenshtein_distance` computes the
classic Levenshtein recurrence (on the reversed strings, reflecting that the
DP consumes both strings from the left while the recurrence consumes from the
head). -/
theorem levCore_eq (s1 s2 : Str) : levCore s1 s2 = levRec s1.reverse s2.reverse := by
  unfold levCore
  by_cases h : s2.length = 0
  · rw [if_pos h, List.length_eq_zero.mp h]
    show s1.length = levRec s1.reverse []
    rw [levRec_nil_right, List.length_reverse]
  · rw [if_neg h, ← row_nil_left s2, levLoop_row s2 s1 []]
    show lastD (row (List.reverseAux s1 []) s2) 0 = levRec s1.reverse s2.reverse
    show lastD (levRec (List.reverseAux s1 []) [] ::
      rowAux (List.reverseAux s1 []) [] s2) 0 = levRec s1.reverse s2.reverse
    rw [lastD_row (List.reverseAux s1 []) s2 []]
    rfl

theorem levRec_symm_aux :
    ∀ (n : Nat) (s t : Str), s.length + t.length ≤ n → levRec s t = levRec t s := by
  intro n
  induction n with
  | zero =>
      intro s t h
      have hs : s = [] := by
        cases s with
        | nil => rfl
        | cons a s => simp at h
      have ht : t = [] := by
        cases t with
        | nil => rfl
        | cons b t => simp at h
      rw [hs, ht]
  | succ n ih =>
      intro s t h
      cases s with
      | nil => rw [levRec_nil_left, levRec_nil_right]
      | cons a s =>
          cases t with
          | nil => rw [levRec_nil_left, levRec_nil_right]
          | cons b t =>
              have h1 : s.length + (b :: t).length ≤ n := by
                simp [List.length_cons] at h ⊢; omega
              have h2 : (a :: s).length + t.length ≤ n := by
                simp [List.length_cons] at h ⊢; omega
              have h3 : s.length + t.length ≤ n := by
                simp [List.length_cons] at h ⊢; omega
              have h2' : t.length + (a :: s).length ≤ n := by omega
              have h1' : (b :: t).length + s.length ≤ n := by omega
              have h3' : t.length + s.length ≤ n := by omega
              rw [levRec_cons_cons, levRec_cons_cons, ih s (b :: t) h1,
                ih (a :: s) t h2, ih s t h3, subCost_comm]
              exact min_left_comm _ _ _

theorem levRec_symm (s t : Str) : levRec s t = levRec t s :=
  levRec_symm_aux (s.length + t.length) s t le_rfl

/-- C8: the brand matcher's edit distance is symmetric:
`edit_distance(a, b) = edit_distance(b, a)` for all pairs of strings, where
`levenshtein_distance` is the embedding of `BrandMatcher._levenshtein_distance`
(classic Levenshtein distance, unit-cost insertions/deletions/substitutions,
computed over the full strings: `levCore_eq` identifies the row DP with the
classic recurrence `levRec`). -/
theorem c8_edit_distance_symmetric (a b : Str) :
    levenshtein_distance a b = levenshtein_distance b a := by
  unfold levenshtein_distance
  rcases Nat.lt_trichotomy a.length b.length with h | h | h
  · rw [if_pos h, if_neg (by omega)]
  · rw [if_neg (by omega), if_neg (by omega), levCore_eq, levCore_eq, levRec_symm]
  · rw [if_neg (by omega), if_pos h]

theorem sortRisk_sum (l : List RiskFactor) :
    ((sortRisk l).map RiskFactor.weight).sum = (l.map RiskFactor.weight).sum :=
  ((List.perm_insertionSort wge l).map RiskFactor.weight).sum_eq

/-- C1: for every feature input, the computed risk score equals the minimum
of the sum of the weights of all recorded (returned) risk factors and 100,
hence lies in [0, 100]; and the derived risk level is the pure function of
the score with thresholds 30 and 70. -/
theorem c1_risk_score_bounds (f : Features) :
    (calculate_risk f).1 =
      min (((calculate_risk f).2.map RiskFactor.weight).sum) 100 ∧
    0 ≤ (calculate_risk f).1 ∧ (calculate_risk f).1 ≤ 100 ∧
    ((calculate_risk f).1 < 30 → riskLevel (calculate_risk f).1 = "Low") ∧
    (30 ≤ (calculate_risk f).1 ∧ (calculate_risk f).1 < 70 →
      riskLevel (calculate_risk f).1 = "Medium") ∧
    (70 ≤ (calculate_risk f).1 → riskLevel (calculate_risk f).1 = "High") := by
  refine ⟨?_, Nat.zero_le _, ?_, ?_, ?_, ?_⟩
  · show min (totalWeight f) 100 =
      min (((sortRisk (riskFactorsUnsorted f)).map RiskFactor.weight).sum) 100
    rw [sortRisk_sum]
    rfl
  · exact min_le_right _ _
  · intro h
    rw [riskLevel, if_pos h]
  · rintro ⟨h1, h2⟩
    rw [riskLevel, if_neg (by omega), if_pos h2]
  · intro h
    rw [riskLevel, if_neg (by omega), if_neg (by omega)]

theorem c1_witness :
    ((calculate_risk ⟨some [], none, none⟩).1 < 30 ∧
      riskLevel (calculate_risk ⟨some [], none, none⟩).1 = "Low") ∧
    ((30 ≤ (calculate_risk (⟨some [⟨"hex_encoding", PyVal.vnum 0, []⟩,
          ⟨"long_url", PyVal.vnum 0, []⟩], none, none⟩ : Features)).1 ∧
        (calculate_risk (⟨some [⟨"hex_encoding", PyVal.vnum 0, []⟩,
          ⟨"long_url", PyVal.vnum 0, []⟩], none, none⟩ : Features)).1 < 70) ∧
      riskLevel (calculate_risk (⟨some [⟨"hex_encoding", PyVal.vnum 0, []⟩,
        ⟨"long_url", PyVal.vnum 0, []⟩], none, none⟩ : Features)).1 = "Medium") ∧
    (70 ≤ (calculate_risk (⟨some [⟨"hex_encoding", PyVal.vnum 0, []⟩,
        ⟨"private_ip", PyVal.vnum 0, []⟩, ⟨"punycode", PyVal.vnum 0, []⟩],
        none, none⟩ : Features)).1 ∧
      riskLevel (calculate_risk (⟨some [⟨"hex_encoding", PyVal.vnum 0, []⟩,
        ⟨"private_ip", PyVal.vnum 0, []⟩, ⟨"punycode", PyVal.vnum 0, []⟩],
        none, none⟩ : Features)).1 = "High") :=
  ⟨⟨by decide, (c1_risk_score_bounds ⟨some [], none, none⟩).2.2.2.1 (by decide)⟩,
   ⟨⟨by decide, by decide⟩,
    (c1_risk_score_bounds _).2.2.2.2.1 ⟨by decide, by decide⟩⟩,
   ⟨by decide, (c1_risk_score_bounds _).2.2.2.2.2 (by decide)⟩⟩

theorem filter_orderedInsert_pos (a : RiskFactor) (w : Nat) (ha : a.weight = w) :
    ∀ l : List RiskFactor,
      (List.orderedInsert wge a l).filter (fun x => x.weight == w) =
        a :: l.filter (fun x => x.weight == w) := by
  intro l
  induction l with
  | nil => simp [List.orderedInsert, ha]
  | cons y l ih =>
      by_cases hr : wge a y
      · rw [List.orderedInsert, if_pos hr]
        rw [List.filter_cons, if_pos (by simp [ha])]
      · rw [List.orderedInsert, if_neg hr]
        have hy : y.weight ≠ w := by
          unfold wge at hr
          omega
        rw [List.filter_cons, List.filter_cons,
          if_neg (by simp [hy]), if_neg (by simp [hy]), ih]

theorem filter_orderedInsert_neg (a : RiskFactor) (w : Nat) (ha : a.weight ≠ w) :
    ∀ l : List RiskFactor,
      (List.orderedInsert wge a l).filter (fun x => x.weight == w) =
        l.filter (fun x => x.weight == w) := by
  intro l
  induction l with
  | nil => simp [List.orderedInsert, ha]
  | cons y l ih =>
      by_cases hr : wge a y
      · rw [List.orderedInsert, if_pos hr]
        rw [List.filter_cons, if_neg (by simp [ha])]
      · rw [List.orderedInsert, if_neg hr]
        rw [List.filter_cons, List.filter_cons, ih]

theorem filter_sortRisk (w : Nat) :
    ∀ l : List RiskFactor,
      (sortRisk l).filter (fun x => x.weight == w) =
        l.filter (fun x => x.weight == w) := by
  intro l
  induction l with
  | nil => rfl
  | cons a l ih =>
      show (List.orderedInsert wge a (sortRisk l)).filter (fun x => x.weight == w) =
        (a :: l).filter (fun x => x.weight == w)
      by_cases ha : a.weight = w
      · rw [filter_orderedInsert_pos a w ha (sortRisk l), ih]
        rw [List.filter_cons, if_pos (by simp [ha])]
      · rw [filter_orderedInsert_neg a w ha (sortRisk l), ih]
        rw [List.filter_cons, if_neg (by simp [ha])]

/-- C7: the returned `risk_factors` list is sorted by weight in descending
order (`wge a b` is `b.weight ≤ a.weight`), and for every weight value the
factors of that weight appear in exactly their original (recording) order —
the filter characterization of a stable sort.  Both `calculate_risk` and
`riskFactorsUnsorted` are pure functions, so the output is identical across
repeated runs on identical input. -/
theorem c7_sorted_stable (f : Features) :
    List.Pairwise wge (calculate_risk f).2 ∧
    ∀ w : Nat, (calculate_risk f).2.filter (fun x => x.weight == w) =
      (riskFactorsUnsorted f).filter (fun x => x.weight == w) := by
  constructor
  · exact List.sorted_insertionSort wge (riskFactorsUnsorted f)
  · intro w
    exact filter_sortRisk w (riskFactorsUnsorted f)

/-- C5: a `typosquatting` match carrying similarity `s` is recorded with the
base typosquatting weight (40 in `risk_weights`) scaled by `s / 100` and
rounded toward zero, while `homoglyph_attack` and `partial_homoglyph`
matches are recorded at their unscaled base weights (50 and 35). -/
theorem c5_typosquatting_scaling (m : Match) :
    (∀ s : Nat, m.type = "typosquatting" → m.similarity = some s →
      factorOfMatch m = some ⟨"typosquatting", 40 * s / 100, m.description⟩) ∧
    (m.type = "homoglyph_attack" →
      factorOfMatch m = some ⟨"homoglyph_attack", 50, m.description⟩) ∧
    (m.type = "partial_homoglyph" →
      factorOfMatch m = some ⟨"partial_homoglyph", 35, m.description⟩) := by
  refine ⟨?_, ?_, ?_⟩
  · intro s ht hs
    unfold factorOfMatch matchWeight
    rw [ht, hs]
    rfl
  · intro ht
    unfold factorOfMatch matchWeight
    rw [ht]
    rfl
  · intro ht
    unfold factorOfMatch matchWeight
    rw [ht]
    rfl

theorem c5_witness :
    factorOfMatch ⟨"typosquatting", txt "google", txt "g00gle", some 92, some 2,
        none, txt "d1"⟩ =
      some ⟨"typosquatting", 40 * 92 / 100,
        (⟨"typosquatting", txt "google", txt "g00gle", some 92, some 2, none,
          txt "d1"⟩ : Match).description⟩ ∧
    factorOfMatch ⟨"homoglyph_attack", txt "amazon", txt "amaz0n", none, none,
        none, txt "d2"⟩ =
      some ⟨"homoglyph_attack", 50,
        (⟨"homoglyph_attack", txt "amazon", txt "amaz0n", none, none, none,
          txt "d2"⟩ : Match).description⟩ ∧
    factorOfMatch ⟨"partial_homoglyph", txt "paypal", txt "paypa1x", none, none,
        none, txt "d3"⟩ =
      some ⟨"partial_homoglyph", 35,
        (⟨"partial_homoglyph", txt "paypal", txt "paypa1x", none, none, none,
          txt "d3"⟩ : Match).description⟩ :=
  ⟨(c5_typosquatting_scaling _).1 92 rfl rfl,
   (c5_typosquatting_scaling _).2.1 rfl,
   (c5_typosquatting_scaling _).2.2 rfl⟩

/-- C9: whenever the hostname (after the port strip) is recognized as an IP
literal by the injected `socket.inet_aton` recognizer, `analyze` returns the
synthesized record — `domain_exists = false`, all WHOIS fields `None`, and a
suspicious-trait list consisting of exactly the one `ip_address_no_whois`
trait — and the result does not depend on the injected WHOIS lookup function
at all (no lookup is performed). -/
theorem c9_ip_literal_no_whois (inetAton : Str → Bool) (extractF : Str → Extracted)
    (whoisF : Str → WhoisOutcome) (now : Int) (hostname0 : Str)
    (h : inetAton (stripPort hostname0) = true) :
    domain_analyze inetAton extractF whoisF now hostname0 =
      ⟨domainOf (extractF (stripPort hostname0)), false, none, none, none, none,
        none, [ipNoWhoisTrait (stripPort hostname0)]⟩ := by
  unfold domain_analyze
  rw [if_pos h]

theorem c9_witness :
    (fun _ : Str => true) (stripPort (txt "192.168.1.1")) = true ∧
    domain_analyze (fun _ => true) (fun _ => ⟨[], txt "192.168.1", txt "1"⟩)
        (fun _ => WhoisOutcome.err []) 0 (txt "192.168.1.1") =
      ⟨domainOf ((fun _ : Str => (⟨[], txt "192.168.1", txt "1"⟩ : Extracted))
          (stripPort (txt "192.168.1.1"))), false, none, none, none, none, none,
        [ipNoWhoisTrait (stripPort (txt "192.168.1.1"))]⟩ :=
  ⟨rfl, c9_ip_literal_no_whois (fun _ => true)
    (fun _ => ⟨[], txt "192.168.1", txt "1"⟩) (fun _ => WhoisOutcome.err []) 0
    (txt "192.168.1.1") rfl⟩

theorem mem_subPass {sub b : Str} {m : Match} (hm : m ∈ subPass sub b) :
    m = bisMatch b sub := by
  unfold subPass at hm
  by_cases h : sub ≠ [] ∧ strIn b (lower sub) = true
  · rw [if_pos h] at hm
    exact List.mem_singleton.mp hm
  · rw [if_neg h] at hm
    exact absurd hm (List.not_mem_nil m)

theorem mem_exactPass {d sub b : Str} {m : Match} (hm : m ∈ exactPass d sub b) :
    m.brand = b ∧ ((m = bidMatch b d ∧ lower d ≠ lower b) ∨ m = bisMatch b sub) := by
  unfold exactPass at hm
  by_cases h1 : strIn b (lower d) = true
  · rw [if_pos h1] at hm
    by_cases h2 : lower d = lower b
    · rw [if_pos h2] at hm
      exact absurd hm (List.not_mem_nil m)
    · rw [if_neg h2] at hm
      rcases List.mem_cons.mp hm with h | h
      · subst h
        exact ⟨rfl, Or.inl ⟨rfl, h2⟩⟩
      · have hb := mem_subPass h
        subst hb
        exact ⟨rfl, Or.inr rfl⟩
  · rw [if_neg h1] at hm
    have hb := mem_subPass hm
    subst hb
    exact ⟨rfl, Or.inr rfl⟩

theorem mem_typoPass {ratioF : Str → Str → Nat} {d b : Str} {m : Match}
    (hm : m ∈ typoPass ratioF d b) :
    m.brand = b ∧ m.type = "typosquatting" ∧ lower d ≠ lower b := by
  unfold typoPass at hm
  by_cases h0 : b.length < 4
  · rw [if_pos h0] at hm
    exact absurd hm (List.not_mem_nil m)
  · rw [if_neg h0] at hm
    by_cases h1 : fuzzy_threshold ≤ ratioF (lower d) (lower b) ∨
        (levenshtein_distance (lower d) (lower b) ≤ levenshtein_threshold ∧
          4 < b.length)
    · rw [if_pos h1] at hm
      by_cases h2 : lower d = lower b
      · rw [if_pos h2] at hm
        exact absurd hm (List.not_mem_nil m)
      · rw [if_neg h2] at hm
        have he := List.mem_singleton.mp hm
        subst he
        exact ⟨rfl, rfl, h2⟩
    · rw [if_neg h1] at hm
      exact absurd hm (List.not_mem_nil m)

theorem mem_homEntry {d b : Str} {p : Str × Str} {m : Match}
    (hm : m ∈ homEntry d b p) :
    m.brand = b ∧
      ((m.type = "homoglyph_attack" ∧ strIn p.1 b = true ∧
          lower d = lower (replaceStr b p.1 p.2)) ∨
        m.type = "partial_homoglyph") := by
  unfold homEntry at hm
  by_cases h1 : strIn p.1 b = true
  · rw [if_pos h1] at hm
    by_cases h2 : lower d = lower (replaceStr b p.1 p.2)
    · rw [if_pos h2] at hm
      have he := List.mem_singleton.mp hm
      subst he
      exact ⟨rfl, Or.inl ⟨rfl, h1, h2⟩⟩
    · rw [if_neg h2] at hm
      by_cases h3 : strIn (lower (replaceStr b p.1 p.2)) (lower d) = true
      · rw [if_pos h3] at hm
        have he := List.mem_singleton.mp hm
        subst he
        exact ⟨rfl, Or.inr rfl⟩
      · rw [if_neg h3] at hm
        exact absurd hm (List.not_mem_nil m)
  · rw [if_neg h1] at hm
    exact absurd hm (List.not_mem_nil m)

theorem mem_homPass {d b : Str} {m : Match} (hm : m ∈ homPass d b) :
    m.brand = b ∧
      ((m.type = "homoglyph_attack" ∧ ∃ p ∈ homoglyphs, strIn p.1 b = true ∧
          lower d = lower (replaceStr b p.1 p.2)) ∨
        m.type = "partial_homoglyph") := by
  unfold homPass at hm
  by_cases h0 : b.length < 4
  · rw [if_pos h0] at hm
    exact absurd hm (List.not_mem_nil m)
  · rw [if_neg h0] at hm
    obtain ⟨p, hp, hmp⟩ := List.mem_flatMap.mp hm
    obtain ⟨hbr, hca⟩ := mem_homEntry hmp
    refine ⟨hbr, ?_⟩
    rcases hca with ⟨ht, hin, heq⟩ | ht
    · exact Or.inl ⟨ht, p, hp, hin, heq⟩
    · exact Or.inr ht

/-- No brand of the default list maps to itself under any applicable homoglyph
substitution (compared after lowercasing, as the code does): the self-match
exclusion of the homoglyph pass. -/
theorem no_self_hom :
    ∀ b ∈ default_brands, ∀ p ∈ homoglyphs,
      strIn p.1 b = true → ¬ lower (replaceStr b p.1 p.2) = lower b := by decide

/-- C6: a domain label exactly equal (case-insensitively) to a brand of the
default brand list never produces a `brand_in_domain`, `typosquatting` or
`homoglyph_attack` match for that brand: filtering the output of
`find_matches` for such matches carrying that brand yields the empty list. -/
theorem c6_no_self_match (ratioF : Str → Str → Nat) (b domain sub : Str)
    (hb : b ∈ default_brands) (hd : lower domain = lower b) :
    (find_matches ratioF default_brands domain sub).filter
      (fun m => m.brand == b && (m.type == "brand_in_domain" ||
        m.type == "typosquatting" || m.type == "homoglyph_attack")) = [] := by
  rw [List.filter_eq_nil_iff]
  intro m hm hpm
  rw [Bool.and_eq_true, Bool.or_eq_true, Bool.or_eq_true] at hpm
  obtain ⟨hbrand, htype⟩ := hpm
  have hbrand' : m.brand = b := beq_iff_eq.mp hbrand
  unfold find_matches at hm
  rcases List.mem_append.mp hm with hm12 | hm3
  · rcases List.mem_append.mp hm12 with hm1 | hm2
    · obtain ⟨b', hb', hmb⟩ := List.mem_flatMap.mp hm1
      obtain ⟨hbr, hcase⟩ := mem_exactPass hmb
      have hb'b : b' = b := by rw [← hbr, hbrand']
      rcases hcase with ⟨_, hne⟩ | hmeq
      · rw [hb'b] at hne
        exact hne hd
      · rw [hmeq] at htype
        simp [bisMatch] at htype
    · obtain ⟨b', hb', hmb⟩ := List.mem_flatMap.mp hm2
      obtain ⟨hbr, _, hne⟩ := mem_typoPass hmb
      have hb'b : b' = b := by rw [← hbr, hbrand']
      rw [hb'b] at hne
      exact hne hd
  · unfold check_homoglyphs at hm3
    obtain ⟨b', hb', hmb⟩ := List.mem_flatMap.mp hm3
    obtain ⟨hbr, hca⟩ := mem_homPass hmb
    have hb'b : b' = b := by rw [← hbr, hbrand']
    rcases hca with ⟨_, p, hp, hin, heq⟩ | ht
    · have hrep : lower (replaceStr b' p.1 p.2) = lower b' := by
        rw [← heq, hd, hb'b]
      exact no_self_hom b' hb' p hp hin hrep
    · rw [ht] at htype
      simp at htype

theorem c6_witness :
    txt "google" ∈ default_brands ∧
    lower (txt "GooGle") = lower (txt "google") ∧
    (find_matches (fun _ _ => 0) default_brands (txt "GooGle") []).filter
      (fun m => m.brand == txt "google" && (m.type == "brand_in_domain" ||
        m.type == "typosquatting" || m.type == "homoglyph_attack")) = [] :=
  ⟨by decide, by decide,
    c6_no_self_match (fun _ _ => 0) (txt "google") (txt "GooGle") [] (by decide)
      (by decide)⟩

theorem lower_dropbox : lower (txt "dropbox") = txt "dropbox" := by decide

theorem count_dropbox : default_brands.count (txt "dropbox") = 2 := by decide

theorem exactPass_filter_dropbox (d sub : Str)
    (h1 : strIn (txt "dropbox") (lower d) = true)
    (h2 : lower d ≠ txt "dropbox") (b' : Str) :
    (exactPass d sub b').filter
        (fun m => m.type == "brand_in_domain" && m.brand == txt "dropbox") =
      if b' = txt "dropbox" then [bidMatch (txt "dropbox") d] else [] := by
  by_cases hb : b' = txt "dropbox"
  · subst hb
    rw [if_pos rfl]
    unfold exactPass
    rw [if_pos h1, if_neg (by rw [lower_dropbox]; exact h2)]
    rw [List.filter_cons, if_pos (by rfl)]
    have hsub : (subPass sub (txt "dropbox")).filter
        (fun m => m.type == "brand_in_domain" && m.brand == txt "dropbox") = [] := by
      rw [List.filter_eq_nil_iff]
      intro m hm hpm
      have hb := mem_subPass hm
      subst hb
      simp [bisMatch] at hpm
    rw [hsub]
  · rw [if_neg hb]
    rw [List.filter_eq_nil_iff]
    intro m hm hpm
    obtain ⟨hbr, _⟩ := mem_exactPass hm
    rw [Bool.and_eq_true] at hpm
    have hmb : m.brand = txt "dropbox" := beq_iff_eq.mp hpm.2
    rw [hbr] at hmb
    exact hb hmb

theorem flatMap_ite_replicate (x : Match) (db : Str) :
    ∀ l : List Str,
      (l.flatMap (fun b' => if b' = db then [x] else [])) =
        List.replicate (l.count db) x := by
  intro l
  induction l with
  | nil => rfl
  | cons a l ih =>
      rw [List.flatMap_cons, ih, List.count_cons]
      by_cases h : a = db
      · rw [if_pos h, if_pos (by simp [h])]
        rw [List.replicate_succ]
        rfl
      · rw [if_neg h, if_neg (by simp [h]), Nat.add_zero]
        rfl

theorem countP_le_filterMap (q : Match → Bool) (p : RiskFactor → Bool)
    (f : Match → Option RiskFactor)
    (h : ∀ a, q a = true → ∃ c, f a = some c ∧ p c = true) :
    ∀ l : List Match, l.countP q ≤ (l.filterMap f).countP p := by
  intro l
  induction l with
  | nil => simp
  | cons a l ih =>
      rw [List.countP_cons, List.filterMap_cons]
      cases hq : q a with
      | true =>
          obtain ⟨c, hfa, hpc⟩ := h a hq
          rw [hfa, List.countP_cons, hpc]
          simp only [if_pos rfl, if_true]
          omega
      | false =>
          rw [if_neg (by simp)]
          cases hfa : f a with
          | none => simpa using ih
          | some c =>
              rw [List.countP_cons]
              omega

theorem find_matches_filter_dropbox (ratioF : Str → Str → Nat) (d sub : Str)
    (h1 : strIn (txt "dropbox") (lower d) = true)
    (h2 : lower d ≠ txt "dropbox") :
    (find_matches ratioF default_brands d sub).filter
        (fun m => m.type == "brand_in_domain" && m.brand == txt "dropbox") =
      List.replicate 2 (bidMatch (txt "dropbox") d) := by
  unfold find_matches
  rw [List.filter_append, List.filter_append]
  have hA : (default_brands.flatMap (exactPass d sub)).filter
      (fun m => m.type == "brand_in_domain" && m.brand == txt "dropbox") =
      List.replicate 2 (bidMatch (txt "dropbox") d) := by
    rw [List.filter_flatMap]
    calc default_brands.flatMap
          (fun b' => (exactPass d sub b').filter
            (fun m => m.type == "brand_in_domain" && m.brand == txt "dropbox"))
        = default_brands.flatMap
            (fun b' => if b' = txt "dropbox"
              then [bidMatch (txt "dropbox") d] else []) := by
          simp only [exactPass_filter_dropbox d sub h1 h2]
      _ = List.replicate (default_brands.count (txt "dropbox"))
            (bidMatch (txt "dropbox") d) :=
          flatMap_ite_replicate (bidMatch (txt "dropbox") d) (txt "dropbox")
            default_brands
      _ = List.replicate 2 (bidMatch (txt "dropbox") d) := by rw [count_dropbox]
  have hB : (default_brands.flatMap (typoPass ratioF d)).filter
      (fun m => m.type == "brand_in_domain" && m.brand == txt "dropbox") = [] := by
    rw [List.filter_eq_nil_iff]
    intro m hm hpm
    obtain ⟨b', _, hmb⟩ := List.mem_flatMap.mp hm
    obtain ⟨_, ht, _⟩ := mem_typoPass hmb
    rw [Bool.and_eq_true] at hpm
    have := beq_iff_eq.mp hpm.1
    rw [ht] at this
    simp at this
  have hC : (check_homoglyphs default_brands d).filter
      (fun m => m.type == "brand_in_domain" && m.brand == txt "dropbox") = [] := by
    rw [List.filter_eq_nil_iff]
    intro m hm hpm
    unfold check_homoglyphs at hm
    obtain ⟨b', _, hmb⟩ := List.mem_flatMap.mp hm
    obtain ⟨_, hca⟩ := mem_homPass hmb
    rw [Bool.and_eq_true] at hpm
    have hmt := beq_iff_eq.mp hpm.1
    rcases hca with ⟨ht, _⟩ | ht <;> rw [ht] at hmt <;> simp at hmt
  rw [hA, hB, hC, List.append_nil, List.append_nil]

/-- C10: the default brand list contains `dropbox` twice, so for every domain
label that strictly contains `dropbox` (case-insensitively, and is not exactly
`dropbox`), `find_matches` emits exactly two identical `brand_in_domain`
matches for `dropbox`, and the risk engine records the `brand_in_domain`
weight (15) at least twice among the risk factors (hence adds it twice to the
pre-cap total). -/
theorem c10_duplicate_dropbox (ratioF : Str → Str → Nat) (d sub : Str)
    (ts : Option (List Trait)) (di : Option DomainInfo)
    (h1 : strIn (txt "dropbox") (lower d) = true)
    (h2 : lower d ≠ txt "dropbox") :
    (find_matches ratioF default_brands d sub).filter
        (fun m => m.type == "brand_in_domain" && m.brand == txt "dropbox") =
      List.replicate 2 (bidMatch (txt "dropbox") d) ∧
    2 ≤ (riskFactorsUnsorted
        ⟨ts, di, some (find_matches ratioF default_brands d sub)⟩).countP
      (fun fac => fac.type == "brand_in_domain" && fac.weight == 15) := by
  refine ⟨find_matches_filter_dropbox ratioF d sub h1 h2, ?_⟩
  have hq : (find_matches ratioF default_brands d sub).countP
      (fun m => m.type == "brand_in_domain" && m.brand == txt "dropbox") = 2 := by
    rw [List.countP_eq_length_filter, find_matches_filter_dropbox ratioF d sub h1 h2,
      List.length_replicate]
  have hle : (find_matches ratioF default_brands d sub).countP
      (fun m => m.type == "brand_in_domain" && m.brand == txt "dropbox") ≤
      (matchFactors (find_matches ratioF default_brands d sub)).countP
        (fun fac => fac.type == "brand_in_domain" && fac.weight == 15) := by
    apply countP_le_filterMap
    intro a ha
    rw [Bool.and_eq_true] at ha
    have ht : a.type = "brand_in_domain" := beq_iff_eq.mp ha.1
    refine ⟨⟨"brand_in_domain", 15, a.description⟩, ?_, by rfl⟩
    unfold factorOfMatch matchWeight
    rw [ht]
    rfl
  have hsplit : riskFactorsUnsorted
      ⟨ts, di, some (find_matches ratioF default_brands d sub)⟩ =
      traitFactors (ts.getD []) ++
        traitFactors ((di.map DomainInfo.suspicious_traits).getD []) ++
        matchFactors (find_matches ratioF default_brands d sub) := rfl
  rw [hsplit, List.countP_append, List.countP_append]
  omega

theorem c10_witness :
    strIn (txt "dropbox") (lower (txt "dropboxx")) = true ∧
    lower (txt "dropboxx") ≠ txt "dropbox" ∧
    ((find_matches (fun _ _ => 0) default_brands (txt "dropboxx") []).filter
        (fun m => m.type == "brand_in_domain" && m.brand == txt "dropbox") =
      List.replicate 2 (bidMatch (txt "dropbox") (txt "dropboxx")) ∧
    2 ≤ (riskFactorsUnsorted
        ⟨none, none, some (find_matches (fun _ _ => 0) default_brands
          (txt "dropboxx") [])⟩).countP
      (fun fac => fac.type == "brand_in_domain" && fac.weight == 15)) :=
  ⟨by decide, by decide,
    c10_duplicate_dropbox (fun _ _ => 0) (txt "dropboxx") [] none none
      (by decide) (by decide)⟩

set_option maxRecDepth 4000

/-- C4: the evaluated homoglyph table has no entry mapping m to rn — the
source line with that entry uses the duplicated dict key m, overwritten two
lines later by the entry mapping m to nn — so the candidate `arnazon` is
never built from brand `amazon`
and `_check_homoglyphs` emits no `homoglyph_attack` at all for the domain
label `arnazon`; the pass only reaches `arnazon` indirectly via the
typosquatting check (edit distance 2), shown by the last two conjuncts. -/
theorem c4_m_to_rn_dropped :
    (txt "m", txt "rn") ∉ homoglyphs ∧
    (txt "m", txt "nn") ∈ homoglyphs ∧
    (txt "rn", txt "m") ∈ homoglyphs ∧
    (check_homoglyphs default_brands (txt "arnazon")).filter
      (fun m => m.type == "homoglyph_attack") = [] ∧
    levenshtein_distance (lower (txt "arnazon")) (lower (txt "amazon")) = 2 ∧
    (typoPass (fun _ _ => 0) (txt "arnazon") (txt "amazon")).map Match.type =
      ["typosquatting"] := by decide

theorem hex_crash (isPrivate : Str → Option Bool) (p : ParsedURL) (e : Extracted)
    (h : (hexFound p.netloc || hexFound p.path) = true) :
    analyze_suspicious_traits isPrivate p e = Except.error PyError.nameErrorUrl := by
  unfold analyze_suspicious_traits
  rw [if_pos h]

/-- C2: for a URL whose path contains a percent-encoded byte sequence (`%41`),
the suspicious-trait analysis does not return a trait list at all: the
`hex_encoding` branch evaluates the unbound name `url` and raises `NameError`,
which propagates out of `parse` — evaluated here at the concrete failing input
`http://example.com/%41` (urlparse components: netloc `example.com`, path
`/%41`). -/
theorem c2_hex_encoding_crash :
    hexFound (txt "/%41") = true ∧
    analyze_suspicious_traits (fun _ => none)
        ⟨txt "http", txt "example.com", txt "/%41", [], [],
          txt "http://example.com/%41"⟩
        ⟨[], txt "example", txt "com"⟩ = Except.error PyError.nameErrorUrl ∧
    parse
      (fun _ => ⟨txt "http", txt "example.com", txt "/%41", [], [],
        txt "http://example.com/%41"⟩)
      (fun _ => ⟨[], txt "example", txt "com"⟩) (fun _ => []) (fun _ => none)
      (txt "http://example.com/%41") = Except.error PyError.nameErrorUrl :=
  ⟨rfl, rfl, rfl⟩

/-- The documented output of `urllib.parse.urlparse` on the input
`http:// /`: scheme `http`, netloc `" "` (the text between `//` and the next
`/`), path `/`.  `urlparse` does not validate against the URI grammar. -/
def urlparseSpace : Str → ParsedURL :=
  fun _ => ⟨txt "http", txt " ", txt "/", [], [], txt "http:// /"⟩

/-- The output of `tldextract.extract` on the same input: no subdomain, no
known suffix, domain `" "`. -/
def extractSpace : Str → Extracted := fun _ => ⟨[], txt " ", []⟩

/-- Modelled from the spec: the claim's premise "cannot be parsed as a URL
per the standard URI grammar" (RFC 3986, which the repository never checks).
This is the necessary character-level condition of that grammar: every
character of a URI belongs to the unreserved set, the reserved set
(gen-delims and sub-delims) or is a percent sign; in particular no URI
contains a space. -/
def specUriChar (c : Nat) : Bool :=
  isAlnum c ||
    ([45, 46, 95, 126, 58, 47, 63, 35, 91, 93, 64, 33, 36, 38, 39, 40, 41, 42,
      43, 44, 59, 61, 37] : List Nat).contains c

/-- Modelled from the spec: a string failing this check is malformed per the
standard URI grammar. -/
def specUriValid (s : Str) : Bool := s.all specUriChar

/-- C3 counterexample: `http:// /` is not a URL per the standard URI grammar
(its netloc is a space), yet the decomposition step returns a complete parse
result for it — no `MalformedURL` error exists anywhere in the code, so the
claimed terminal error is never produced. -/
theorem c3_counterexample :
    specUriValid (txt "http:// /") = false ∧
    parse urlparseSpace extractSpace (fun _ => []) (fun _ => none)
        (txt "http:// /") =
      Except.ok ⟨txt "http:// /", txt "http", txt " ", txt "/", [], [],
        txt " ", [], [], [], []⟩ :=
  ⟨rfl, rfl⟩

theorem analyze_ok (isPrivate : Str → Option Bool) (p : ParsedURL) (e : Extracted)
    (h : (hexFound p.netloc || hexFound p.path) = false) :
    analyze_suspicious_traits isPrivate p e =
      Except.ok (portTraits p.netloc ++ ipTraits isPrivate p.netloc ++
        manySubTraits e.subdomain ++ tldTraits e.suffix ++ punyTraits p.netloc ++
        longTraits p.geturl ++ specialTraits p.netloc) := by
  unfold analyze_suspicious_traits
  rw [if_neg (by rw [h]; exact Bool.false_ne_true)]

/-- C3 amended: the decomposition step never yields a `MalformedURL` error —
for every input string it returns a full parse result, whether or not the
input is a URL per the standard URI grammar; the only way it fails is the
`NameError` crash of the hex-encoding trait (so a result exists exactly when
the parsed netloc and path contain no `%XX` sequence). -/
theorem c3_amended_no_malformed_error (urlparseF : Str → ParsedURL)
    (extractF : Str → Extracted) (parseQsF : Str → List (Str × List Str))
    (isPrivate : Str → Option Bool) (url : Str) :
    (∃ r, parse urlparseF extractF parseQsF isPrivate url = Except.ok r) ↔
      (hexFound (urlparseF (normalizeScheme url)).netloc ||
        hexFound (urlparseF (normalizeScheme url)).path) = false := by
  by_cases h : (hexFound (urlparseF (normalizeScheme url)).netloc ||
      hexFound (urlparseF (normalizeScheme url)).path) = true
  · have herr : parse urlparseF extractF parseQsF isPrivate url =
        Except.error PyError.nameErrorUrl := by
      simp only [parse, hex_crash isPrivate _ _ h]
    constructor
    · rintro ⟨r, hr⟩
      rw [herr] at hr
      exact absurd hr (by simp)
    · intro hf
      rw [hf] at h
      exact absurd h (by simp)
  · have hf : (hexFound (urlparseF (normalizeScheme url)).netloc ||
        hexFound (urlparseF (normalizeScheme url)).path) = false := by
      revert h
      cases hexFound (urlparseF (normalizeScheme url)).netloc ||
        hexFound (urlparseF (normalizeScheme url)).path <;> simp
    constructor
    · intro _
      exact hf
    · intro _
      refine ⟨⟨normalizeScheme url, (urlparseF (normalizeScheme url)).scheme,
        (urlparseF (normalizeScheme url)).netloc,
        (urlparseF (normalizeScheme url)).path,
        (urlparseF (normalizeScheme url)).query,
        (urlparseF (normalizeScheme url)).fragment,
        (extractF (normalizeScheme url)).domain,
        (extractF (normalizeScheme url)).subdomain,
        (extractF (normalizeScheme url)).suffix,
        parseQsF (urlparseF (normalizeScheme url)).query,
        portTraits (urlparseF (normalizeScheme url)).netloc ++
          ipTraits isPrivate (urlparseF (normalizeScheme url)).netloc ++
          manySubTraits (extractF (normalizeScheme url)).subdomain ++
          tldTraits (extractF (normalizeScheme url)).suffix ++
          punyTraits (urlparseF (normalizeScheme url)).netloc ++
          longTraits (urlparseF (normalizeScheme url)).geturl ++
          specialTraits (urlparseF (normalizeScheme url)).netloc⟩, ?_⟩
      simp only [parse, analyze_ok isPrivate _ _ hf]
